import Mathlib

/-!
Verification of the TXLedger adapter layer against its specification.

This file shallowly embeds the pure cores of the TXLedger source
(`api/proxy.ts`, `src/adapters/evm-factory.ts`, `src/adapters/cosmos-factory.ts`,
the perps adapter base, the dYdX adapter, `src/utils/filters.ts` / the CSV
writer, and the `useTransactions` orchestration hook) as executable Lean
definitions, and proves or refutes the frozen claims about them.

Modelling conventions, used throughout:
* JavaScript strings are Lean `String`s (lists of characters).
* Arbitrary-precision `BigInt` values are `Nat` (all values in scope are
  non-negative).
* IEEE-754 `number` values that carry decimal quantities are modelled as
  exact rationals `ℚ`; timestamps (`Date.getTime()` epoch milliseconds) as
  `Nat`.  Each definition notes where this abstraction matters.
* `ISO-8601` timestamp strings are represented by the instant they denote
  (epoch milliseconds, a `Nat`), since the source only ever compares them
  via `new Date(s).getTime()` or formats them in UTC.
* Fallible operations return `Option`/`Except`.
-/

namespace TXLedger

/-! ### JavaScript string primitives -/

/-- Decimal digit character for a digit value below ten. -/
def digitChar (d : ℕ) : Char := Char.ofNat (48 + d)

/-- Numeric value of a decimal digit character. -/
def charDigitVal (c : Char) : ℕ := c.toNat - 48

/-- Little-endian decimal digits, with explicit fuel so that the
definition is structural (kernel-reducible).  `digitsLE` below always
supplies enough fuel. -/
def digitsLEAux : ℕ → ℕ → List ℕ
  | 0, _ => []
  | fuel + 1, n => if n = 0 then [] else n % 10 :: digitsLEAux fuel (n / 10)

/-- Little-endian decimal digits of `n` (empty for `0`). -/
def digitsLE (n : ℕ) : List ℕ := digitsLEAux n n

/-- Big-endian decimal digits of `n` (empty for `0`). -/
def digitsBE (n : ℕ) : List ℕ := (digitsLE n).reverse

/-- Digit list of the JavaScript decimal numeral of `n`
(`BigInt.prototype.toString` / `Number.prototype.toString` for a
non-negative integer): big-endian digits, and `[0]` for zero. -/
def natDigitList (n : ℕ) : List ℕ := if n = 0 then [0] else digitsBE n

/-- Characters of the JavaScript decimal numeral of `n`. -/
def natChars (n : ℕ) : List Char := (natDigitList n).map digitChar

/-- JavaScript decimal numeral of a non-negative integer
(`String(n)` / `n.toString()`). -/
def natStr (n : ℕ) : String := String.mk (natChars n)

/-- Fixed-width big-endian decimal representation: the `d` low decimal
digits of `x`, most significant first.  Used to reason about
`String.prototype.padStart(d, '0')` applied to a numeral. -/
def fixedDigits : ℕ → ℕ → List ℕ
  | 0, _ => []
  | d + 1, x => fixedDigits d (x / 10) ++ [x % 10]

/-- `l.padStart(d, '0')` on a digit list. -/
def padZeros (l : List ℕ) (d : ℕ) : List ℕ := List.replicate (d - l.length) 0 ++ l

/-- Parse of a plain decimal-digit string, modelling `BigInt(s)` (and
`parseFloat(s)` for the integer strings in scope): `none` when the string
is empty or contains a non-digit character, in which case `BigInt`
throws (resp. `parseFloat` yields `NaN`). -/
def parseNatDigits (s : String) : Option ℕ :=
  if s.data.isEmpty then none
  else if s.data.all Char.isDigit then
    some (s.data.foldl (fun a c => 10 * a + charDigitVal c) 0)
  else none

/-- Model of `s.replace(/\.?0+$/, '')`: when the string ends in one or
more `'0'` characters, remove that run of zeros together with one
immediately preceding `'.'` when present; otherwise leave the string
unchanged. -/
def stripZeros (l : List Char) : List Char :=
  let z := l.reverse.takeWhile (fun c => c = '0')
  if z.isEmpty then l
  else
    let r := l.reverse.dropWhile (fun c => c = '0')
    (match r with
     | '.' :: r' => r'
     | _ => r).reverse

/-- Model of `l1.startsWith(l2)` on character lists. -/
def listStartsWith : List Char → List Char → Bool
  | _, [] => true
  | [], _ :: _ => false
  | c :: cs, d :: ds => c = d && listStartsWith cs ds

/-- Contiguous-substring test on character lists. -/
def listContainsSub : List Char → List Char → Bool
  | [], p => p.isEmpty
  | c :: cs, p => listStartsWith (c :: cs) p || listContainsSub cs p

/-- Model of `s.includes(pat)` (JavaScript `String.prototype.includes`). -/
def jsIncludes (s pat : String) : Bool := listContainsSub s.data pat.data

/-- Model of `s.toLowerCase()` for the ASCII strings in scope. -/
def jsToLower (s : String) : String := String.mk (s.data.map Char.toLower)

/-- Model of `s.slice(0, n)` for a non-negative `n`. -/
def jsSliceTake (s : String) (n : ℕ) : String := String.mk (s.data.take n)

/-! ### Shared amount formatters (`formatWei`, `formatAmount`) — claim C5 -/

/-- The EVM factory's `formatWei` (src/adapters/evm-factory.ts, lines
65-78), translated step for step:

* `if (!wei || wei === '0') return '0'` — the first branch;
* `BigInt(wei)` — `parseNatDigits`; on a parse failure the `catch`
  returns the input string unchanged;
* `BigInt(10 ** decimals)` — `10 ^ decimals` (the JavaScript double
  `10 ** decimals` is exactly the integer for the configured
  `decimals ≤ 18`, which is why the claim theorems carry that bound);
* `fracPart.toString().padStart(decimals, '0').slice(0, 8)`;
* `` `${intPart}.${fracStr}` ``.replace(/\.?0+$/, '')` — `stripZeros`;
* `return result || '0'`. -/
def formatWei (wei : String) (decimals : ℕ) : String :=
  if wei = "" ∨ wei = "0" then "0"
  else
    match parseNatDigits wei with
    | none => wei
    | some value =>
      let divisor := 10 ^ decimals
      let intPart := value / divisor
      let fracPart := value % divisor
      let fracStr := (padZeros (natDigitList fracPart) decimals).take 8
      let result := stripZeros (natChars intPart ++ '.' :: fracStr.map digitChar)
      if result.isEmpty then "0" else String.mk result

/-- The Cosmos factory's `formatAmount` (src/adapters/cosmos-factory.ts,
lines 79-87), whose arithmetic is `parseFloat(amount) / Math.pow(10,
decimals)` followed by `toFixed(Math.min(decimals, 8))`.

The IEEE-754 double arithmetic is modelled exactly over the integers:
for an integer string `amount` with value `n`, `toFixed(m)` (with
`m = min decimals 8`) rounds `n / 10^(decimals-m)` to the nearest
integer, ties away from zero, which for `e := decimals - m` is
`(2*n + 10^e) / (2*10^e)` in natural division.  This agrees with the
double computation whenever the exact value is farther from a rounding
boundary than the relative double error (in particular on every input
used in a theorem below).  `parseFloat` of a non-numeral yields `NaN`,
and `"NaN".replace(/\.?0+$/, '')` is `"NaN"`. -/
def formatAmount (amount : String) (decimals : ℕ) : String :=
  if amount = "" ∨ amount = "0" then "0"
  else
    match parseNatDigits amount with
    | none => "NaN"
    | some n =>
      let m := min decimals 8
      let e := decimals - m
      let rounded := (2 * n + 10 ^ e) / (2 * 10 ^ e)
      let body :=
        if m = 0 then natChars rounded
        else natChars (rounded / 10 ^ m) ++
          '.' :: (padZeros (natDigitList (rounded % 10 ^ m)) m).map digitChar
      let result := stripZeros body
      if result.isEmpty then "0" else String.mk result

/-- Trailing-zero stripping on a fractional digit block (used only by the
specification-side formatter below). -/
def dropTrailingZeros (l : List Char) : List Char :=
  (l.reverse.dropWhile (fun c => c = '0')).reverse

/-- Specification-side formatter, written from the words of the claim
(spec §4.1): the decimal representation of `n / 10^d` with the
fractional part truncated (not rounded) to at most 8 digits, trailing
zeros and the trailing decimal point stripped, and `"0"` when the value
is zero.  Stated by truncating the value first (`t`) and then rendering,
rather than rendering first and post-processing the string as the source
does; the refinement theorem for C5 proves the two agree. -/
def formatBaseUnitsSpec (n : ℕ) (d : ℕ) : String :=
  let m := min d 8
  let t := n / 10 ^ (d - m)
  let ip := t / 10 ^ m
  let fr := t % 10 ^ m
  if fr = 0 then String.mk (natChars ip)
  else String.mk (natChars ip ++
    '.' :: dropTrailingZeros ((padZeros (natDigitList fr) m).map digitChar))

/-! ### Canonical transaction model (src/types.ts) -/

/-- The `direction` union type `'in' | 'out' | 'self' | 'unknown'`
(`inn` models the string `'in'`, a Lean keyword). -/
inductive Direction where
  | inn
  | out
  | self
  | unknown
deriving DecidableEq, Repr

/-- Display string of a `Direction` (template-literal interpolation of the
union value). -/
def directionString : Direction → String
  | .inn => "in"
  | .out => "out"
  | .self => "self"
  | .unknown => "unknown"

/-- The `status` union type `'success' | 'failed' | 'pending'`. -/
inductive Status where
  | success
  | failed
  | pending
deriving DecidableEq, Repr

/-- `NormalizedTransaction` (src/types.ts).  `datetimeUtc` holds the
instant (epoch milliseconds) denoted by the ISO-8601 string the source
stores, since the source only compares it through
`new Date(s).getTime()` or formats it in UTC; the debugging-only
`rawDetails` escape hatch is omitted. -/
structure Tx where
  chainId : String
  address : String
  datetimeUtc : ℕ
  hash : String
  type : String
  direction : Direction
  counterparty : String
  asset : String
  amount : String
  fee : String
  feeAsset : String
  status : Status
  block : String
  explorerUrl : String
  notes : String
  tag : String
  pnl : String
deriving DecidableEq, Repr

/-- `FetchResult` (src/types.ts). -/
structure FetchResultT where
  transactions : List Tx
  nextCursor : Option String
  hasMore : Bool
  totalCount : Option ℕ
deriving DecidableEq, Repr

/-! ### Cosmos factory page merge (claim C2) -/

/-- One `map.set(tx.hash, tx)` step of building
`new Map(allTxs.map(tx => [tx.hash, tx]))`: an existing key keeps its
insertion position but takes the new value; a new key is appended. -/
def jsMapInsert (m : List Tx) (tx : Tx) : List Tx :=
  if m.any (fun t => t.hash = tx.hash) then
    m.map (fun t => if t.hash = tx.hash then tx else t)
  else m ++ [tx]

/-- `Array.from(new Map(allTxs.map(tx => [tx.hash, tx])).values())`:
deduplication by hash, keeping first-insertion order and the last value
seen for each hash. -/
def jsMapDedupByHash (l : List Tx) : List Tx := l.foldl jsMapInsert []

/-- Insertion step of a stable descending sort by a numeric key, placing
the inserted element before the first element whose key is not larger. -/
def insertDescBy (key : α → ℕ) (x : α) : List α → List α
  | [] => [x]
  | y :: ys => if key y ≤ key x then x :: y :: ys else y :: insertDescBy key x ys

/-- Model of the stable `Array.prototype.sort` with comparator
`(a, b) => key(b) - key(a)` (descending by `key`), as an insertion
sort. -/
def sortDescBy (key : α → ℕ) (l : List α) : List α := l.foldr (insertDescBy key) []

/-- The merge section of the Cosmos factory's `fetchTransactions`
(src/adapters/cosmos-factory.ts, lines 342-365), applied to the two
already-normalized sub-query results `sentTxs`/`receivedTxs` and the
decoded paging options (`limit = options?.limit || 50`,
`offset = cursor ? parseInt(cursor) : 0`):

* `allTxs = [...sentTxs, ...receivedTxs]`;
* `uniqueTxs = Array.from(new Map(allTxs.map(tx => [tx.hash, tx])).values())`;
* `uniqueTxs.sort((a, b) => new Date(b.datetimeUtc).getTime() - new Date(a.datetimeUtc).getTime())`;
* `transactions = uniqueTxs.slice(0, limit)`; `hasMore = uniqueTxs.length >= limit`. -/
def cosmosMergePage (sentTxs receivedTxs : List Tx) (limit offset : ℕ) : FetchResultT :=
  let allTxs := sentTxs ++ receivedTxs
  let uniqueTxs := sortDescBy Tx.datetimeUtc (jsMapDedupByHash allTxs)
  let transactions := uniqueTxs.take limit
  let hasMore := decide (limit ≤ uniqueTxs.length)
  { transactions := transactions
    nextCursor := if hasMore then some (natStr (offset + limit)) else none
    hasMore := hasMore
    totalCount := some uniqueTxs.length }

/-! ### EVM factory, etherscan-style fetch (claims C3 and C7) -/

/-- Raw etherscan-style transaction row (src/adapters/evm-factory.ts,
`EtherscanTx`); `fromAddr`/`toAddr` model the `from`/`to` fields
(`from` is a Lean keyword). -/
structure EtherscanTx where
  hash : String
  blockNumber : String
  timeStamp : String
  fromAddr : String
  toAddr : String
  value : String
  gas : String
  gasPrice : String
  gasUsed : String
  isError : String
  functionName : String
  input : String
deriving DecidableEq, Repr

/-- Raw etherscan-style response envelope. -/
structure EtherscanResponse where
  status : String
  message : String
  result : List EtherscanTx
deriving DecidableEq, Repr

/-- The per-chain configuration fields of `EvmChainConfig` that
`fetchEtherscan` reads (`decimals` already defaulted by
`config.decimals || 18`). -/
structure EvmChainCfg where
  id : String
  name : String
  symbol : String
  explorerUrl : String
  decimals : ℕ
deriving DecidableEq, Repr

/-- `determineTypeFromEtherscan` (src/adapters/evm-factory.ts, lines
92-102), translated clause for clause.  `tx.functionName?.toLowerCase()
.includes(..)` with an absent `functionName` is falsy in the source; the
empty string gives the same `false` here. -/
def determineTypeFromEtherscan (tx : EtherscanTx) : String :=
  if tx.input = "" ∨ tx.input = "0x" then "transfer"
  else
    let methodId := jsToLower (jsSliceTake tx.input 10)
    if methodId = "0xa9059cbb" ∨ methodId = "0x23b872dd" then "token_transfer"
    else if methodId = "0x095ea7b3" then "approve"
    else if methodId = "0x38ed1739" ∨ methodId = "0x7ff36ab5" ∨ methodId = "0x18cbafe5" then "swap"
    else if jsIncludes (jsToLower tx.functionName) "swap" then "swap"
    else if jsIncludes (jsToLower tx.functionName) "stake" then "stake"
    else if jsIncludes (jsToLower tx.functionName) "claim" then "claim"
    else "contract"

/-- The per-row normalization inside `fetchEtherscan` (src/adapters/
evm-factory.ts, lines 205-235).  `BigInt(tx.gasUsed || '0')` is modelled
by defaulting a non-numeral to `0` (the source substitutes `'0'` for an
absent field and throws on other non-numerals, which no claim
exercises); `new Date(parseInt(tx.timeStamp) * 1000).toISOString()` is
the instant `1000 * timeStamp`. -/
def normalizeEtherscanTx (cfg : EvmChainCfg) (address : String) (tx : EtherscanTx) : Tx :=
  let fromAddr := jsToLower tx.fromAddr
  let toAddr := jsToLower tx.toAddr
  let addrLower := jsToLower address
  let isIncoming := toAddr = addrLower
  let isSelf := fromAddr = toAddr
  let fee := natStr ((parseNatDigits tx.gasUsed).getD 0 * (parseNatDigits tx.gasPrice).getD 0)
  { chainId := cfg.id
    address := address
    datetimeUtc := 1000 * (parseNatDigits tx.timeStamp).getD 0
    hash := tx.hash
    type := determineTypeFromEtherscan tx
    direction := if isSelf then .self else if isIncoming then .inn else .out
    counterparty := if isIncoming then fromAddr else toAddr
    asset := cfg.symbol
    amount := formatWei tx.value cfg.decimals
    fee := formatWei fee cfg.decimals
    feeAsset := cfg.symbol
    status := if tx.isError = "0" then .success else .failed
    block := tx.blockNumber
    explorerUrl := cfg.explorerUrl ++ "/tx/" ++ tx.hash
    notes := tx.functionName
    tag := ""
    pnl := "0" }

/-- The decoded `limit` of `fetchEtherscan`:
`options?.limit || 100` (`0` is falsy). -/
def jsLimitOf (limitOpt : Option ℕ) : ℕ :=
  match limitOpt with
  | none => 100
  | some l => if l = 0 then 100 else l

/-- The decoded `page` of `fetchEtherscan`:
`options?.cursor ? parseInt(options.cursor) : 1`, taking the cursor
already parsed. -/
def jsPageOf (cursor : Option ℕ) : ℕ := cursor.getD 1

/-- `fetchEtherscan` (src/adapters/evm-factory.ts, lines 179-244) from
the decoded HTTP response on: the application-status check (treating the
literal message `"No transactions found"` as success, distinguishing
rate-limit messages, and otherwise throwing `data.message` with a
fallback), the per-row normalization, and the
`hasMore = txs.length === limit` page heuristic with
`nextCursor = String(page + 1)`. -/
def fetchEtherscanCore (cfg : EvmChainCfg) (address : String) (cursor : Option ℕ)
    (limitOpt : Option ℕ) (data : EtherscanResponse) : Except String FetchResultT :=
  let page := jsPageOf cursor
  let limit := jsLimitOf limitOpt
  if data.status ≠ "1" ∧ data.message ≠ "No transactions found" then
    if jsIncludes data.message "rate limit" then
      Except.error (cfg.name ++ " API rate limit exceeded. Please try again later.")
    else
      Except.error (if data.message = "" then cfg.name ++ " API error" else data.message)
  else
    let txs := data.result
    let transactions := txs.map (normalizeEtherscanTx cfg address)
    let hasMore := decide (txs.length = limit)
    Except.ok
      { transactions := transactions
        nextCursor := if hasMore then some (natStr (page + 1)) else none
        hasMore := hasMore
        totalCount := none }

/-- `hasMore` of an etherscan fetch outcome, `none` on a thrown error. -/
def hasMoreOfResult (r : Except String FetchResultT) : Option Bool :=
  match r with
  | .ok fr => some fr.hasMore
  | .error _ => none

/-! ### Perps adapter base (claim C6) and the dYdX adapter (claim C4) -/

/-- The `PerpsTag` union type
`'open_position' | 'close_position' | 'funding_payment'`. -/
inductive PerpsTag where
  | open_position
  | close_position
  | funding_payment
deriving DecidableEq, Repr

/-- Model of `tag.replace('_', ' ')` on the three tag values (JavaScript
`replace` with a string pattern replaces the first occurrence; each tag
has exactly one underscore). -/
def perpsTagType : PerpsTag → String
  | .open_position => "open position"
  | .close_position => "close position"
  | .funding_payment => "funding payment"

/-- The `chainInfo` fields `BasePerpsAdapter.createTransaction` reads. -/
structure PerpsChainInfo where
  id : String
  name : String
  explorerUrl : String
deriving DecidableEq, Repr

/-- The `PerpsChainConfig` field `createTransaction` reads. -/
structure PerpsChainCfg where
  settlementToken : String
deriving DecidableEq, Repr

/-- `Math.trunc` on an exact rational (truncation toward zero). -/
def jsTrunc (x : ℚ) : ℤ := x.num.tdiv x.den

/-- `truncateDecimals` of the perps factory:
`Math.trunc(n * 10^decimals) / 10^decimals`, on the exact rational
carried by the IEEE-754 `number`. -/
def truncateDecimals (x : ℚ) (decimals : ℕ := 8) : ℚ :=
  (jsTrunc (x * 10 ^ decimals) : ℚ) / 10 ^ decimals

/-- The record produced by `BasePerpsAdapter.createTransaction`: a
`NormalizedTransaction` whose numeric string fields (`amount`, `fee`,
`pnl` — produced by `Number.prototype.toString` in the source) are kept
as the exact rationals they denote, plus the optional `paymentToken`. -/
structure PerpsRecord where
  chainId : String
  address : String
  datetimeUtc : ℕ
  hash : String
  type : String
  direction : Direction
  counterparty : String
  asset : String
  amount : ℚ
  fee : ℚ
  feeAsset : String
  status : Status
  block : String
  explorerUrl : String
  notes : String
  tag : PerpsTag
  pnl : ℚ
  paymentToken : Option String
deriving DecidableEq, Repr

/-- The parameter object of `BasePerpsAdapter.createTransaction`. -/
structure PerpsTxParams where
  hash : String
  timestampMs : ℕ
  asset : String
  amount : ℚ
  fee : ℚ
  pnl : ℚ
  tag : PerpsTag
  notes : String
  address : String
  block : Option String
deriving DecidableEq, Repr

/-- `BasePerpsAdapter.createTransaction` (the perps factory, lines
123-161), translated field for field.  The source's trailing
`: 'unknown'` ternary arm is unreachable for the three-valued
`PerpsTag`. -/
def createTransaction (info : PerpsChainInfo) (cfg : PerpsChainCfg)
    (p : PerpsTxParams) : PerpsRecord :=
  let direction :=
    match p.tag with
    | .open_position => Direction.out
    | .close_position => if 0 ≤ p.pnl then Direction.inn else Direction.out
    | .funding_payment => if 0 ≤ p.pnl then Direction.inn else Direction.out
  { chainId := info.id
    address := p.address
    datetimeUtc := p.timestampMs
    hash := p.hash
    type := perpsTagType p.tag
    direction := direction
    counterparty := info.name
    asset := p.asset
    amount := truncateDecimals |p.amount|
    fee := truncateDecimals |p.fee|
    feeAsset := cfg.settlementToken
    status := .success
    block := p.block.getD ""
    explorerUrl := info.explorerUrl ++ "/tx/" ++ p.hash
    notes := p.notes
    tag := p.tag
    pnl := truncateDecimals p.pnl
    paymentToken :=
      if p.tag = .close_position ∨ p.tag = .funding_payment then
        some cfg.settlementToken
      else none }

/-- A dYdX indexer fill (the dYdX adapter's `DydxFill`).  Decimal string
fields consumed through `parseFloat` (`size`, `fee`, `realizedPnl`) are
modelled by their numeric value; `price` is kept as a string because the
adapter only interpolates it into `notes`; `createdAt` is the instant of
the ISO timestamp; an absent `transactionHash` is the empty string
(falsy either way); `realizedPnl` is `none` when the field is absent
(`undefined`/`null`). -/
structure DydxFill where
  id : String
  side : String
  liquidity : String
  type : String
  market : String
  marketType : String
  price : String
  size : ℚ
  fee : ℚ
  createdAt : ℕ
  createdAtHeight : String
  transactionHash : String
  realizedPnl : Option ℚ
deriving DecidableEq, Repr

/-- A dYdX funding payment (the dYdX adapter's `DydxFundingPayment`),
with the same string-vs-value conventions as `DydxFill`. -/
structure DydxFundingPayment where
  market : String
  payment : ℚ
  rate : String
  positionSize : String
  effectiveAt : ℕ
  effectiveAtHeight : String
deriving DecidableEq, Repr

/-- Character class `[a-z0-9]`. -/
def isLowerAlnum (c : Char) : Bool :=
  (decide ('a' ≤ c) && decide (c ≤ 'z')) || (decide ('0' ≤ c) && decide (c ≤ '9'))

/-- The dYdX address regex `/^dydx1[a-z0-9]{38,}$/`. -/
def validateDydxAddress (s : String) : Bool :=
  listStartsWith s.data "dydx1".data
    && decide (38 ≤ (s.data.drop 5).length)
    && (s.data.drop 5).all isLowerAlnum

/-- The dYdX adapter's `chainInfo`. -/
def dydxInfo : PerpsChainInfo :=
  { id := "dydx", name := "dYdX v4", explorerUrl := "https://www.mintscan.io/dydx" }

/-- The dYdX adapter's perps config. -/
def dydxCfg : PerpsChainCfg := { settlementToken := "USDC" }

/-- The fill-to-record mapping inside `DydxAdapter.fetchTransactions`
(lines 163-206): reject a non-`PERPETUAL` market type; with a reported
`realizedPnl`, classify the fill as a close exactly when the truncated
PnL is non-zero; with `realizedPnl` absent, throw rather than guess. -/
def dydxFillToTransaction (address : String) (fill : DydxFill) : Except String PerpsRecord :=
  if fill.marketType ≠ "PERPETUAL" then
    Except.error ("dYdX fill " ++ fill.id ++ ": unexpected marketType \"" ++ fill.marketType
      ++ "\". This adapter only handles perpetual trades.")
  else
    let size := truncateDecimals fill.size
    let fee := truncateDecimals |fill.fee|
    match fill.realizedPnl with
    | none =>
      Except.error ("dYdX fill " ++ fill.id
        ++ ": realizedPnl field is missing from API response. "
        ++ "Cannot determine if this fill is an open or close without "
        ++ "platform-reported realized P&L.")
    | some v =>
      let pnl := truncateDecimals v
      let isClose := pnl ≠ 0
      let asset := ((fill.market.splitOn "-").headD fill.market)
      let txHash :=
        if fill.transactionHash ≠ "" then fill.transactionHash ++ "-" ++ fill.id
        else "dydx-fill-" ++ fill.id
      let tag := if isClose then PerpsTag.close_position else PerpsTag.open_position
      Except.ok (createTransaction dydxInfo dydxCfg
        { hash := txHash
          timestampMs := fill.createdAt
          asset := asset
          amount := size
          fee := fee
          pnl := if isClose then pnl else 0
          tag := tag
          notes := fill.side ++ " " ++ fill.market ++ " @ " ++ fill.price ++ " ("
            ++ fill.type ++ "/" ++ fill.liquidity ++ ")"
          address := address
          block := some fill.createdAtHeight })

/-- The funding-payment-to-record mapping inside
`DydxAdapter.fetchTransactions` (lines 208-225). -/
def dydxFundingToTransaction (address : String) (p : DydxFundingPayment) : PerpsRecord :=
  let amount := truncateDecimals p.payment
  let asset := ((p.market.splitOn "-").headD p.market)
  let txHash := "dydx-funding-" ++ p.market ++ "-" ++ p.effectiveAtHeight
  createTransaction dydxInfo dydxCfg
    { hash := txHash
      timestampMs := p.effectiveAt
      asset := "USDC"
      amount := |amount|
      fee := 0
      pnl := amount
      tag := PerpsTag.funding_payment
      notes := "Funding: " ++ asset ++ " rate=" ++ p.rate ++ " size=" ++ p.positionSize
      address := address
      block := some p.effectiveAtHeight }

/-- `Array.prototype.map` over a callback that can throw: the first
thrown error aborts the whole map, in element order. -/
def mapMExcept (f : α → Except ε β) : List α → Except ε (List β)
  | [] => .ok []
  | a :: as =>
    match f a with
    | .error e => .error e
    | .ok b =>
      match mapMExcept f as with
      | .error e => .error e
      | .ok bs => .ok (b :: bs)

/-- The result envelope of a perps `fetchTransactions`. -/
structure PerpsFetchResult where
  transactions : List PerpsRecord
  hasMore : Bool
  totalCount : Option ℕ
deriving DecidableEq, Repr

/-- `DydxAdapter.fetchTransactions` (lines 153-236) on already-fetched
fill and funding pages: address validation, the two mappings above, the
merged descending re-sort by timestamp, and `hasMore: false`. -/
def dydxFetchCore (address : String) (fills : List DydxFill)
    (funding : List DydxFundingPayment) : Except String PerpsFetchResult :=
  if validateDydxAddress address = false then
    Except.error "Invalid dYdX v4 address. Must be a bech32 address starting with 'dydx1'."
  else
    match mapMExcept (dydxFillToTransaction address) fills with
    | .error e => .error e
    | .ok fillTransactions =>
      let fundingTransactions := funding.map (dydxFundingToTransaction address)
      let allTransactions :=
        sortDescBy PerpsRecord.datetimeUtc (fillTransactions ++ fundingTransactions)
      Except.ok
        { transactions := allTransactions
          hasMore := false
          totalCount := some allTransactions.length }

/-! ### CORS relay handler (api/proxy.ts) — claim C1 -/

/-- Value of a hexadecimal digit character. -/
def hexDigitVal (c : Char) : Option ℕ :=
  if '0' ≤ c ∧ c ≤ '9' then some (c.toNat - 48)
  else if 'A' ≤ c ∧ c ≤ 'F' then some (c.toNat - 55)
  else if 'a' ≤ c ∧ c ≤ 'f' then some (c.toNat - 87)
  else none

/-- Percent-decoding of a character list; `none` models the `URIError`
`decodeURIComponent` throws on a malformed escape.  JavaScript
additionally UTF-8-decodes multi-byte `%`-sequences; the model maps each
decoded byte to its code point, which agrees on the ASCII range the
relay's clients produce. -/
def percentDecodeList : List Char → Option (List Char)
  | [] => some []
  | '%' :: a :: b :: rest =>
    match hexDigitVal a, hexDigitVal b with
    | some x, some y => (percentDecodeList rest).map (fun r => Char.ofNat (16 * x + y) :: r)
    | _, _ => none
  | '%' :: _ => none
  | c :: rest => (percentDecodeList rest).map (fun r => c :: r)

/-- `decodeURIComponent` on a string (see `percentDecodeList`). -/
def percentDecode (s : String) : Option String :=
  (percentDecodeList s.data).map String.mk

/-- The relay's fixed `allowedDomains` list (api/proxy.ts, lines
24-46). -/
def allowedDomains : List String :=
  [ "lcd.osmosis.zone"
  , "rest.osmosis.goldenratiostaking.net"
  , "rest.lavenderfive.com"
  , "rest-osmosis.ecostake.com"
  , "osmosis-api.polkachu.com"
  , "lcd-cosmoshub.keplr.app"
  , "cosmos-lcd.quickapi.com"
  , "rest.cosmos.directory"
  , "cosmos-rest.publicnode.com"
  , "celestia-lcd.publicnode.com"
  , "celestia-api.polkachu.com"
  , "dydx-lcd.publicnode.com"
  , "dydx-api.polkachu.com"
  , "sei-lcd.publicnode.com"
  , "sei-api.polkachu.com"
  , "injective-lcd.publicnode.com"
  , "injective-api.polkachu.com"
  , "neutron-lcd.publicnode.com"
  , "neutron-api.polkachu.com"
  , "noble-lcd.publicnode.com"
  , "noble-api.polkachu.com" ]

/-- Everything after the `://` scheme separator, for hostname
extraction. -/
def afterSchemeAux : List Char → List Char
  | [] => []
  | ':' :: '/' :: '/' :: rest => rest
  | _ :: rest => afterSchemeAux rest

/-- End-of-hostname delimiters in a URL authority-plus-path tail. -/
def hostEnd (c : Char) : Bool := c = '/' || c = ':' || c = '?' || c = '#'

/-- `new URL(url).hostname` for the `http(s)://host[:port]/path` URLs
the relay receives (no userinfo or IDN), including the WHATWG
lowercasing. -/
def urlHostname (url : String) : String :=
  String.mk (((afterSchemeAux url.data).takeWhile (fun c => !hostEnd c)).map Char.toLower)

/-- The relay's allow-list check (api/proxy.ts, line 49):
`allowedDomains.some(domain => urlObj.hostname.includes(domain))` —
substring containment, not exact membership. -/
def proxyIsAllowed (decodedUrl : String) : Bool :=
  allowedDomains.any (fun domain => jsIncludes (urlHostname decodedUrl) domain)

/-- Outcome of one relay invocation: the HTTP status class chosen before
any upstream call, or the forwarded target URL. -/
inductive ProxyOutcome where
  | badRequest
  | serverError
  | forbidden
  | forward (target : String)
deriving DecidableEq, Repr

/-- The request-validation core of the relay `handler` (api/proxy.ts,
lines 14-55) for a non-`OPTIONS` request: a missing or empty `url`
parameter is a 400; a `decodeURIComponent` or `new URL` throw is caught
as a 500; a hostname failing the allow-list check is a 403; otherwise
the decoded target is forwarded upstream. -/
def proxyHandle (urlParam : Option String) : ProxyOutcome :=
  match urlParam with
  | none => .badRequest
  | some u =>
    if u = "" then .badRequest
    else
      match percentDecode u with
      | none => .serverError
      | some decodedUrl =>
        if proxyIsAllowed decodedUrl then .forward decodedUrl else .forbidden

/-! ### CSV exporter (src/utils/csv.ts) — claim C9 -/

/-- Two-digit zero-padded numeral (`String(n).padStart(2, '0')`). -/
def pad2 (n : ℕ) : String := if n < 10 then "0" ++ natStr n else natStr n

/-- Civil date `(year, month, day)` of a day count since 1970-01-01
(proleptic Gregorian), as computed by the JavaScript `Date` UTC
accessors. -/
def civilFromDays (z : ℕ) : ℕ × ℕ × ℕ :=
  let z' := z + 719468
  let era := z' / 146097
  let doe := z' % 146097
  let yoe := (doe - doe / 1460 + doe / 36524 - doe / 146096) / 365
  let y := yoe + era * 400
  let doy := doe - (365 * yoe + yoe / 4 - yoe / 100)
  let mp := (5 * doy + 2) / 153
  let d := doy - (153 * mp + 2) / 5 + 1
  let m := if mp < 10 then mp + 3 else mp - 9
  (if m ≤ 2 then y + 1 else y, m, d)

/-- `formatDateForAwaken` (src/utils/csv.ts, lines 86-95):
`MM/DD/YYYY HH:MM:SS` from the UTC fields of the instant (the source
parses its ISO-string argument with `new Date`). -/
def formatDateForAwaken (ms : ℕ) : String :=
  let days := ms / 86400000
  let msOfDay := ms % 86400000
  let hours := msOfDay / 3600000
  let minutes := msOfDay % 3600000 / 60000
  let seconds := msOfDay % 60000 / 1000
  let ymd := civilFromDays days
  pad2 ymd.2.1 ++ "/" ++ pad2 ymd.2.2 ++ "/" ++ natStr ymd.1 ++ " "
    ++ pad2 hours ++ ":" ++ pad2 minutes ++ ":" ++ pad2 seconds

/-- The CSV header list of `generateAwakenCsv`. -/
def awakenHeaders : List String :=
  ["Date", "Asset", "Amount", "Fee", "P&L", "Payment Token", "ID", "Notes", "Tag",
   "Transaction Hash"]

/-- `transactionToAwakenRow` (src/utils/csv.ts, lines 97-110) as the
cell list in header order, with the source's `|| '0'` / `|| ''` /
template-literal fallbacks. -/
def transactionToAwakenRow (tx : Tx) : List String :=
  [ formatDateForAwaken tx.datetimeUtc
  , tx.asset
  , tx.amount
  , tx.fee
  , if tx.pnl = "" then "0" else tx.pnl
  , tx.feeAsset
  , jsSliceTake tx.hash 16
  , if tx.notes = "" then tx.type ++ " - " ++ directionString tx.direction else tx.notes
  , tx.tag
  , tx.hash ]

/-- `value.replace(/"/g, '""')`: every double quote doubled. -/
def doubleQuotesList : List Char → List Char
  | [] => []
  | c :: cs => if c = '"' then '"' :: '"' :: doubleQuotesList cs else c :: doubleQuotesList cs

/-- The cell-escaping step of `generateAwakenCsv` (src/utils/csv.ts,
lines 129-134): a value containing a comma, double quote, or newline is
wrapped in double quotes with inner quotes doubled; other values pass
through verbatim. -/
def escapeCsvCell (value : String) : String :=
  if jsIncludes value "," || jsIncludes value "\"" || jsIncludes value "\n" then
    "\"" ++ String.mk (doubleQuotesList value.data) ++ "\""
  else value

/-- `generateAwakenCsv` (src/utils/csv.ts, lines 112-138): header row
plus one escaped, comma-joined row per record, newline-joined. -/
def generateAwakenCsv (transactions : List Tx) : String :=
  String.intercalate "\n"
    (String.intercalate "," awakenHeaders ::
      transactions.map (fun tx =>
        String.intercalate "," ((transactionToAwakenRow tx).map escapeCsvCell)))

/-- Specification-side inverse of the CSV cell escaping: strip one
layer of surrounding quotes and collapse doubled quotes. -/
def collapseQuotes : List Char → List Char
  | [] => []
  | [c] => [c]
  | c :: d :: cs =>
    if c = '"' ∧ d = '"' then '"' :: collapseQuotes cs
    else c :: collapseQuotes (d :: cs)

/-- Specification-side CSV cell parser: undo `escapeCsvCell` on a
well-formed cell, leaving unquoted cells unchanged. -/
def csvUnescapeCell (s : String) : String :=
  match s.data with
  | c :: rest =>
    if c = '"' ∧ rest ≠ [] ∧ rest.getLast? = some '"' then
      String.mk (collapseQuotes rest.dropLast)
    else s
  | [] => s

/-! ### Fetch orchestration hook (useTransactions) — claims C8 and C10 -/

/-- The `useTransactions` state cells that `fetchTransactions`,
`loadMore` and the resolution handlers touch (the filter/sort cells are
independent and omitted). -/
structure HookState where
  transactions : List Tx
  loading : Bool
  error : Option String
  hasMore : Bool
  totalCount : Option ℕ
  cursor : Option String
  currentChainId : String
  currentAddress : String
deriving DecidableEq, Repr

/-- The initial `useState` values of the hook. -/
def initialHookState : HookState :=
  { transactions := []
    loading := false
    error := none
    hasMore := false
    totalCount := none
    cursor := none
    currentChainId := ""
    currentAddress := "" }

/-- The adapter surface the orchestrator's synchronous validation path
reads: `validateAddress` and `chainInfo.name`. -/
structure AdapterL where
  validateAddress : String → Bool
  name : String

/-- The synchronous prefix of `fetchTransactions` (useTransactions,
lines 544-561), up to the point where the adapter call is issued: the
unknown-chain and invalid-address early returns set only `error`; a
valid request clears the prior results, stores the new query context and
sets `loading` before the `await`.  The returned flag records whether a
fetch was issued. -/
def fetchStart (getAdapter : String → Option AdapterL) (chainId address : String)
    (s : HookState) : HookState × Bool :=
  match getAdapter chainId with
  | none => ({ s with error := some ("Unsupported chain: " ++ chainId) }, false)
  | some adapter =>
    if adapter.validateAddress address = false then
      ({ s with error := some ("Invalid address format for " ++ adapter.name) }, false)
    else
      ({ s with
          loading := true
          error := none
          transactions := []
          cursor := none
          currentChainId := chainId
          currentAddress := address }, true)

/-- The `fetchTransactions` fulfilled-promise handler (useTransactions,
lines 564-568 and the `finally`): the four result cells are overwritten
unconditionally — the handler closes over nothing identifying the query
it belongs to, so a late resolution applies regardless of any newer
query context. -/
def fetchResolveOk (result : FetchResultT) (s : HookState) : HookState :=
  { s with
      transactions := result.transactions
      hasMore := result.hasMore
      cursor := result.nextCursor
      totalCount := result.totalCount
      loading := false }

/-- The `fetchTransactions` rejected-promise handler (lines 569-572 and
the `finally`). -/
def fetchResolveErr (msg : String) (s : HookState) : HookState :=
  { s with error := some msg, loading := false }

/-- One observable event of a `useTransactions` session: a user-issued
`fetchTransactions(chainId, address)` call, or the resolution of some
in-flight adapter promise. -/
inductive OrchestratorEvent where
  | start (chainId address : String)
  | resolveOk (r : FetchResultT)
  | resolveErr (msg : String)

/-- State transition of one orchestrator event. -/
def orchestratorStep (getAdapter : String → Option AdapterL) (s : HookState) :
    OrchestratorEvent → HookState
  | .start chainId address => (fetchStart getAdapter chainId address s).1
  | .resolveOk r => fetchResolveOk r s
  | .resolveErr msg => fetchResolveErr msg s

/-- A session as the fold of its event interleaving. -/
def orchestratorRun (getAdapter : String → Option AdapterL) (s : HookState)
    (events : List OrchestratorEvent) : HookState :=
  events.foldl (orchestratorStep getAdapter) s

/-! ### Concrete inputs used by the scenario parts of the claims -/

/-- Scenario record: the sender-role query's copy of transaction `H1`
(spec §8, Cosmos dedup scenario). -/
def cosmosTxSentH1 : Tx :=
  { chainId := "osmosis"
    address := "osmo1abc"
    datetimeUtc := 2000
    hash := "H1"
    type := "transfer"
    direction := .out
    counterparty := "osmo1dest"
    asset := "OSMO"
    amount := "1"
    fee := "0.0025"
    feeAsset := "OSMO"
    status := .success
    block := "100"
    explorerUrl := "https://www.mintscan.io/osmosis/tx/H1"
    notes := ""
    tag := ""
    pnl := "" }

/-- Scenario record: the recipient-role query's copy of the same
transaction `H1`. -/
def cosmosTxRecvH1 : Tx :=
  { cosmosTxSentH1 with direction := .inn, counterparty := "osmo1src" }

/-- Scenario record: transaction `H2`, returned only by the
recipient-role query, older than `H1`. -/
def cosmosTxRecvH2 : Tx :=
  { cosmosTxSentH1 with
      hash := "H2"
      datetimeUtc := 1000
      direction := .inn
      explorerUrl := "https://www.mintscan.io/osmosis/tx/H2" }

/-- An etherscan-style chain config (the `beam` entry of
`evmChainConfigs`, with the `decimals || 18` default applied). -/
def evmCfgBeam : EvmChainCfg :=
  { id := "beam"
    name := "Beam"
    symbol := "BEAM"
    explorerUrl := "https://subnets.avax.network/beam"
    decimals := 18 }

/-- A plain-transfer etherscan row used to mock page responses. -/
def etherscanTxSample : EtherscanTx :=
  { hash := "0xdeadbeef"
    blockNumber := "12345"
    timeStamp := "1700000000"
    fromAddr := "0xAAA0000000000000000000000000000000000001"
    toAddr := "0xBBB0000000000000000000000000000000000002"
    value := "1500000000000000000"
    gas := "21000"
    gasPrice := "1000000000"
    gasUsed := "21000"
    isError := "0"
    functionName := ""
    input := "0x" }

/-- A syntactically valid dYdX address (`dydx1` plus 39 base chars). -/
def dydxAddrSample : String := "dydx1qqqqqqqqqqqqqqqqqqqqqqqqqqqqqqqqqqqqqqq"

/-- Scenario fill: a perpetual fill whose `realizedPnl` field is absent
(spec §8, fail-loudly scenario). -/
def dydxFillNoPnl : DydxFill :=
  { id := "f1"
    side := "BUY"
    liquidity := "TAKER"
    type := "LIMIT"
    market := "BTC-USD"
    marketType := "PERPETUAL"
    price := "50000"
    size := 1
    fee := 1
    createdAt := 1700000000000
    createdAtHeight := "10"
    transactionHash := "0xabc"
    realizedPnl := none }

/-- Scenario record for the CSV-escaping claim: `notes` containing a
comma, quotes and a newline. -/
def csvSampleTx : Tx :=
  { chainId := "ethereum"
    address := "0xabc"
    datetimeUtc := 0
    hash := "abcdef1234567890deadbeef"
    type := "transfer"
    direction := .out
    counterparty := "0xdef"
    asset := "ETH"
    amount := "1.5"
    fee := "0.002"
    feeAsset := "ETH"
    status := .success
    block := "1"
    explorerUrl := "https://etherscan.io/tx/abcdef1234567890deadbeef"
    notes := "He said, \"hi\"\nbye"
    tag := ""
    pnl := "0" }

/-- A two-chain test registry for the orchestrator claims, accepting
every address (the claims under test do not depend on the validator). -/
def regSample : String → Option AdapterL
  | "osmosis" => some { validateAddress := fun _ => true, name := "Osmosis" }
  | "celestia" => some { validateAddress := fun _ => true, name := "Celestia" }
  | _ => none

/-- Result of the first (soon stale) osmosis fetch in the C8 trace. -/
def staleResultA : FetchResultT :=
  { transactions := [cosmosTxSentH1]
    nextCursor := some "50"
    hasMore := true
    totalCount := some 120 }

/-- Result of the newer celestia fetch in the C8 trace. -/
def freshResultB : FetchResultT :=
  { transactions := [{ cosmosTxSentH1 with chainId := "celestia", hash := "HB", asset := "TIA" }]
    nextCursor := none
    hasMore := false
    totalCount := some 1 }

/-- A prior-session hook state with accumulated results, used to state
the frame condition of claim C10. -/
def hookStateWithResults : HookState :=
  { transactions := [cosmosTxSentH1, cosmosTxRecvH2]
    loading := false
    error := none
    hasMore := true
    totalCount := some 120
    cursor := some "50"
    currentChainId := "osmosis"
    currentAddress := "osmo1abc" }

/-! ### Decimal-rendering lemmas for the amount formatters (claim C5) -/


theorem digitsLEAux_congr : ∀ fuel₁ fuel₂ n : ℕ, n ≤ fuel₁ → n ≤ fuel₂ →
    digitsLEAux fuel₁ n = digitsLEAux fuel₂ n := by
  intro fuel₁
  induction fuel₁ with
  | zero =>
    intro fuel₂ n h₁ _
    have : n = 0 := by omega
    subst this
    cases fuel₂ <;> simp [digitsLEAux]
  | succ f ih =>
    intro fuel₂ n h₁ h₂
    rcases Nat.eq_zero_or_pos n with hn | hn
    · subst hn
      cases fuel₂ <;> simp [digitsLEAux]
    · have hne : n ≠ 0 := by omega
      obtain ⟨f₂, rfl⟩ : ∃ f₂, fuel₂ = f₂ + 1 := ⟨fuel₂ - 1, by omega⟩
      have hd : n / 10 < n := Nat.div_lt_self hn (by norm_num)
      simp only [digitsLEAux, if_neg hne]
      rw [ih f₂ (n / 10) (by omega) (by omega)]

theorem digitsLE_succ (n : ℕ) (h : n ≠ 0) : digitsLE n = n % 10 :: digitsLE (n / 10) := by
  have hn : 0 < n := by omega
  have hd : n / 10 < n := Nat.div_lt_self hn (by norm_num)
  obtain ⟨m, rfl⟩ : ∃ m, n = m + 1 := ⟨n - 1, by omega⟩
  show digitsLEAux (m + 1) (m + 1) = _
  simp only [digitsLEAux, if_neg h]
  rw [digitsLEAux_congr m ((m + 1) / 10) ((m + 1) / 10) (by omega) le_rfl]
  rfl

theorem mem_digitsLE_lt (n : ℕ) : ∀ a ∈ digitsLE n, a < 10 := by
  induction n using Nat.strong_induction_on with
  | _ n ih =>
    rcases Nat.eq_zero_or_pos n with hn | hn
    · subst hn; simp [digitsLE, digitsLEAux]
    · rw [digitsLE_succ n (by omega)]
      intro a ha
      rcases List.mem_cons.mp ha with h | h
      · subst h; exact Nat.mod_lt _ (by norm_num)
      · exact ih (n / 10) (Nat.div_lt_self hn (by norm_num)) a h

theorem natDigitList_ne_nil (n : ℕ) : natDigitList n ≠ [] := by
  unfold natDigitList
  split
  · simp
  · rename_i h
    rw [digitsBE, digitsLE_succ n h]
    simp

theorem natChars_ne_nil (n : ℕ) : natChars n ≠ [] := by
  unfold natChars
  simp [natDigitList_ne_nil n]

theorem mem_natDigitList_lt (n : ℕ) : ∀ a ∈ natDigitList n, a < 10 := by
  unfold natDigitList
  split
  · simp
  · intro a ha
    exact mem_digitsLE_lt n a (List.mem_reverse.mp ha)

theorem fixedDigits_length : ∀ d x : ℕ, (fixedDigits d x).length = d := by
  intro d
  induction d with
  | zero => intro x; rfl
  | succ d ih => intro x; simp [fixedDigits, ih]

theorem mem_fixedDigits_lt : ∀ d x : ℕ, ∀ a ∈ fixedDigits d x, a < 10 := by
  intro d
  induction d with
  | zero => intro x a ha; simp [fixedDigits] at ha
  | succ d ih =>
    intro x a ha
    simp only [fixedDigits, List.mem_append, List.mem_singleton] at ha
    rcases ha with h | h
    · exact ih _ a h
    · subst h; exact Nat.mod_lt _ (by norm_num)

theorem fixedDigits_zero : ∀ d : ℕ, fixedDigits d 0 = List.replicate d 0 := by
  intro d
  induction d with
  | zero => rfl
  | succ d ih => simp [fixedDigits, ih, List.replicate_succ']

theorem padZeros_natDigitList : ∀ d x : ℕ, 1 ≤ d → x < 10 ^ d →
    padZeros (natDigitList x) d = fixedDigits d x := by
  intro d
  induction d with
  | zero => intro x h; omega
  | succ d ih =>
    intro x _ hx
    rcases Nat.eq_zero_or_pos x with hx0 | hx0
    · subst hx0
      simp [natDigitList, padZeros, fixedDigits_zero, List.replicate_succ']
    · have hxne : x ≠ 0 := by omega
      rcases Nat.lt_or_ge x 10 with hx10 | hx10
      · have h10 : x / 10 = 0 := Nat.div_eq_of_lt hx10
        have : natDigitList x = [x % 10] := by
          unfold natDigitList digitsBE
          rw [if_neg hxne, digitsLE_succ x hxne, h10]
          rfl
        rw [this]
        simp only [fixedDigits, h10, fixedDigits_zero]
        simp [padZeros, List.replicate_succ', Nat.mod_eq_of_lt hx10]
      · have hq : x / 10 ≠ 0 := by
          have := Nat.div_pos hx10 (show 0 < 10 by norm_num)
          omega
        have hd1 : 1 ≤ d := by
          by_contra hcon
          have hd0 : d = 0 := by omega
          subst hd0
          simp at hx
          omega
        have hsplit : natDigitList x = natDigitList (x / 10) ++ [x % 10] := by
          unfold natDigitList digitsBE
          rw [if_neg hxne, if_neg hq, digitsLE_succ x hxne]
          simp
        have hdivlt : x / 10 < 10 ^ d := by
          rw [Nat.div_lt_iff_lt_mul (show 0 < 10 by norm_num)]
          calc x < 10 ^ (d + 1) := hx
            _ = 10 ^ d * 10 := by rw [Nat.pow_succ]
        have hpad : padZeros (natDigitList x) (d + 1) =
            padZeros (natDigitList (x / 10)) d ++ [x % 10] := by
          rw [hsplit]
          unfold padZeros
          rw [List.length_append]
          simp only [List.length_singleton]
          rw [show d + 1 - ((natDigitList (x / 10)).length + 1) = d - (natDigitList (x / 10)).length by omega]
          rw [List.append_assoc]
        rw [hpad, ih (x / 10) hd1 hdivlt]
        rfl


theorem fixedDigits_take : ∀ d k x : ℕ, k ≤ d →
    (fixedDigits d x).take k = fixedDigits k (x / 10 ^ (d - k)) := by
  intro d
  induction d with
  | zero =>
    intro k x hk
    have : k = 0 := by omega
    subst this
    rfl
  | succ d ih =>
    intro k x hk
    rcases Nat.eq_or_lt_of_le hk with heq | hlt
    · subst heq
      rw [List.take_of_length_le (by rw [fixedDigits_length])]
      simp
    · have hk' : k ≤ d := by omega
      show (fixedDigits d (x / 10) ++ [x % 10]).take k = _
      rw [List.take_append_of_le_length (by rw [fixedDigits_length]; exact hk')]
      rw [ih k (x / 10) hk']
      congr 1
      rw [Nat.div_div_eq_div_mul]
      congr 1
      rw [show d + 1 - k = (d - k) + 1 by omega, Nat.pow_succ]
      ring

theorem fixedDigits_all_zero : ∀ d x : ℕ, x < 10 ^ d →
    (∀ a ∈ fixedDigits d x, a = 0) → x = 0 := by
  intro d
  induction d with
  | zero =>
    intro x hx _
    simp at hx
    omega
  | succ d ih =>
    intro x hx hall
    have hmod : x % 10 = 0 := hall (x % 10) (by simp [fixedDigits])
    have hdiv : x / 10 = 0 := by
      refine ih (x / 10) ?_ ?_
      · rw [Nat.div_lt_iff_lt_mul (show 0 < 10 by norm_num)]
        calc x < 10 ^ (d + 1) := hx
          _ = 10 ^ d * 10 := by rw [Nat.pow_succ]
      · intro a ha
        exact hall a (by simp [fixedDigits, ha])
    omega

theorem digitChar_eq_zero_iff (a : ℕ) (h : a < 10) : (digitChar a = '0') ↔ a = 0 := by
  interval_cases a <;> simp [digitChar]

theorem stripZeros_append (A F : List Char) (hF : F ≠ []) (hdot : '.' ∉ F) :
    stripZeros (A ++ '.' :: F) =
      if F.all (fun c => c = '0') then A else A ++ '.' :: dropTrailingZeros F := by
  unfold stripZeros
  have hrev : (A ++ '.' :: F).reverse = F.reverse ++ '.' :: A.reverse := by
    simp
  rw [hrev]
  by_cases hall : F.all (fun c => c = '0')
  · rw [if_pos hall]
    have hFrevall : ∀ c ∈ F.reverse, decide (c = '0') = true := by
      intro c hc
      exact List.all_eq_true.mp hall c (List.mem_reverse.mp hc)
    have htake : (F.reverse ++ '.' :: A.reverse).takeWhile (fun c => c = '0') =
        F.reverse ++ ('.' :: A.reverse).takeWhile (fun c => c = '0') := by
      rw [List.takeWhile_append]
      rw [if_pos]
      rw [List.takeWhile_eq_self_iff.mpr hFrevall]
    have hdrop : (F.reverse ++ '.' :: A.reverse).dropWhile (fun c => c = '0') =
        '.' :: A.reverse := by
      rw [List.dropWhile_append]
      rw [if_pos]
      · rw [List.dropWhile_cons_of_neg (by simp)]
      · rw [List.isEmpty_iff]
        exact List.dropWhile_eq_nil_iff.mpr hFrevall
    rw [htake, hdrop]
    have hne : ¬ (F.reverse ++ ('.' :: A.reverse).takeWhile (fun c => decide (c = '0'))).isEmpty = true := by
      simp only [List.isEmpty_iff, List.append_eq_nil]
      intro hcon
      exact hF (by simpa using congrArg List.reverse hcon.1)
    rw [if_neg hne]
    simp
  · rw [if_neg hall]
    have hallrev : ¬ ∀ c ∈ F.reverse, decide (c = '0') = true := by
      intro hcon
      apply hall
      rw [List.all_eq_true]
      intro c hc
      exact hcon c (List.mem_reverse.mpr hc)
    have hnotall : ¬ ((F.reverse.takeWhile (fun c => decide (c = '0'))).length = F.reverse.length) := by
      intro hlen
      exact hallrev (by
        have heq := List.Sublist.eq_of_length (List.takeWhile_sublist _) hlen
        intro c hc
        exact List.takeWhile_eq_self_iff.mp heq c hc)
    have htake : (F.reverse ++ '.' :: A.reverse).takeWhile (fun c => decide (c = '0')) =
        F.reverse.takeWhile (fun c => decide (c = '0')) := by
      rw [List.takeWhile_append, if_neg hnotall]
    rw [htake]
    by_cases hz : (F.reverse.takeWhile (fun c => decide (c = '0'))).isEmpty
    · rw [if_pos hz]
      have hfirst : F.reverse.dropWhile (fun c => decide (c = '0')) = F.reverse := by
        rw [List.dropWhile_eq_self_iff]
        intro hl
        exact List.takeWhile_eq_nil_iff.mp (List.isEmpty_iff.mp hz) hl
      unfold dropTrailingZeros
      rw [hfirst]
      simp
    · rw [if_neg hz]
      have hDne : F.reverse.dropWhile (fun c => decide (c = '0')) ≠ [] := by
        intro hnil
        exact hallrev (List.dropWhile_eq_nil_iff.mp hnil)
      have hdropapp : (F.reverse ++ '.' :: A.reverse).dropWhile (fun c => decide (c = '0')) =
          F.reverse.dropWhile (fun c => decide (c = '0')) ++ '.' :: A.reverse := by
        rw [List.dropWhile_append, if_neg (by simpa [List.isEmpty_iff] using hDne)]
      obtain ⟨d₀, D', hD⟩ := List.exists_cons_of_ne_nil hDne
      have hd₀ : d₀ ∈ F := by
        have hmem : d₀ ∈ F.reverse.dropWhile (fun c => decide (c = '0')) := by
          rw [hD]; exact List.mem_cons_self _ _
        exact List.mem_reverse.mp (List.Sublist.mem hmem (List.dropWhile_sublist _))
      have hd₀ne : d₀ ≠ '.' := fun h => hdot (h ▸ hd₀)
      rw [hdropapp, hD]
      unfold dropTrailingZeros
      rw [hD]
      dsimp only
      split
      · rename_i r' heq
        injection heq with h1 h2
        exact absurd h1 hd₀ne
      · simp


theorem digitChar_ne_dot (a : ℕ) (h : a < 10) : digitChar a ≠ '.' := by
  interval_cases a <;> decide

theorem padZeros_ne_nil (l : List ℕ) (m : ℕ) (h : l ≠ []) : padZeros l m ≠ [] := by
  unfold padZeros
  simp [h]

theorem mem_padZeros_lt (l : List ℕ) (m : ℕ) (hl : ∀ a ∈ l, a < 10) :
    ∀ a ∈ padZeros l m, a < 10 := by
  intro a ha
  unfold padZeros at ha
  rcases List.mem_append.mp ha with h | h
  · rw [List.eq_of_mem_replicate h]
    norm_num
  · exact hl a h

theorem padZeros_all_zero_iff (m x : ℕ) (hx : x < 10 ^ m) :
    (((padZeros (natDigitList x) m).map digitChar).all (fun c => c = '0')) = true ↔ x = 0 := by
  rcases Nat.eq_zero_or_pos m with hm | hm
  · subst hm
    simp only [pow_zero, Nat.lt_one_iff] at hx
    subst hx
    constructor
    · intro _; rfl
    · intro _; decide
  · rw [padZeros_natDigitList m x hm hx]
    rw [List.all_eq_true]
    constructor
    · intro h
      refine fixedDigits_all_zero m x hx ?_
      intro a ha
      have hlt := mem_fixedDigits_lt m x a ha
      have := h (digitChar a) (List.mem_map_of_mem _ ha)
      exact (digitChar_eq_zero_iff a hlt).mp (by simpa using this)
    · intro h
      subst h
      rw [fixedDigits_zero]
      intro c hc
      rcases List.mem_map.mp hc with ⟨a, ha, rfl⟩
      rw [List.eq_of_mem_replicate ha]
      decide

theorem formatWei_eq_spec_core (s : String) (n d : ℕ) (hp : parseNatDigits s = some n) :
    formatWei s d = formatBaseUnitsSpec n d := by
  have hs_ne : s ≠ "" := by
    intro h
    subst h
    simp [parseNatDigits] at hp
  by_cases hs0 : s = "0"
  · subst hs0
    have hn : n = 0 := by
      have h0 : parseNatDigits "0" = some 0 := by decide
      rw [h0] at hp
      exact (Option.some.inj hp).symm
    subst hn
    show formatWei "0" d = formatBaseUnitsSpec 0 d
    unfold formatWei formatBaseUnitsSpec
    simp [Nat.zero_div, Nat.zero_mod]
    decide
  · unfold formatWei
    rw [if_neg (by simp [hs_ne, hs0]), hp]
    unfold formatBaseUnitsSpec
    dsimp only
    set m := min d 8 with hm
    have hm_le : m ≤ d := Nat.min_le_left d 8
    have hm8 : m ≤ 8 := Nat.min_le_right d 8
    set fr := n / 10 ^ (d - m) % 10 ^ m with hfrdef
    have hfr_lt : fr < 10 ^ m := Nat.mod_lt _ (Nat.pos_pow_of_pos m (by norm_num))
    have hip : n / 10 ^ d = n / 10 ^ (d - m) / 10 ^ m := by
      rw [Nat.div_div_eq_div_mul, ← Nat.pow_add, Nat.sub_add_cancel hm_le]
    have hF8 : (padZeros (natDigitList (n % 10 ^ d)) d).take 8 = padZeros (natDigitList fr) m := by
      rcases Nat.eq_zero_or_pos d with hd0 | hd1
      · subst hd0
        simp only [hfrdef, hm]
        norm_num [Nat.mod_one, natDigitList, padZeros]
      · have hmod_lt : n % 10 ^ d < 10 ^ d := Nat.mod_lt _ (Nat.pos_pow_of_pos d (by norm_num))
        rcases le_or_lt d 8 with hd8 | hd8
        · have hmd : m = d := by rw [hm]; exact Nat.min_eq_left hd8
          rw [padZeros_natDigitList d _ hd1 hmod_lt]
          rw [List.take_of_length_le (by rw [fixedDigits_length]; exact hd8)]
          rw [hfrdef, hmd]
          rw [Nat.sub_self, pow_zero, Nat.div_one]
          rw [padZeros_natDigitList d _ hd1 hmod_lt]
        · have hmd : m = 8 := by rw [hm]; exact Nat.min_eq_right (by omega)
          rw [padZeros_natDigitList d _ hd1 hmod_lt]
          rw [fixedDigits_take d 8 _ (by omega)]
          have harith : n % 10 ^ d / 10 ^ (d - 8) = n / 10 ^ (d - 8) % 10 ^ 8 := by
            have hpow : 10 ^ (d - 8) * 10 ^ 8 = 10 ^ d := by
              rw [← Nat.pow_add]
              congr 1
              omega
            rw [← hpow]
            exact Nat.mod_mul_right_div_self n (10 ^ (d - 8)) (10 ^ 8)
          rw [harith, hfrdef, hmd]
          rw [padZeros_natDigitList 8 _ (by norm_num)
            (Nat.mod_lt _ (Nat.pos_pow_of_pos 8 (by norm_num)))]
    rw [hF8, ← hip]
    set F := (padZeros (natDigitList fr) m).map digitChar with hF
    have hFne : F ≠ [] := by
      rw [hF]
      simp only [ne_eq, List.map_eq_nil_iff]
      exact padZeros_ne_nil _ _ (natDigitList_ne_nil fr)
    have hdotF : '.' ∉ F := by
      rw [hF]
      intro hmem
      rcases List.mem_map.mp hmem with ⟨a, ha, heq⟩
      have hlt : a < 10 := mem_padZeros_lt _ _ (fun b hb => mem_natDigitList_lt fr b hb) a ha
      exact digitChar_ne_dot a hlt heq
    rw [stripZeros_append (natChars (n / 10 ^ d)) F hFne hdotF]
    by_cases hfr0 : fr = 0
    · have hallz : (F.all (fun c => c = '0')) = true := by
        rw [hF]
        exact (padZeros_all_zero_iff m fr hfr_lt).mpr hfr0
      rw [if_pos hallz, if_pos hfr0]
      rw [if_neg (by
        simp only [List.isEmpty_iff]
        exact natChars_ne_nil _)]
    · have hallz : ¬ (F.all (fun c => c = '0')) = true := by
        rw [hF]
        intro hcon
        exact hfr0 ((padZeros_all_zero_iff m fr hfr_lt).mp hcon)
      rw [if_neg hallz, if_neg hfr0]
      rw [if_neg (by
        simp only [List.isEmpty_iff]
        simp [natChars_ne_nil])]


/-- C5 counterexample: at `raw = "123456789"`, `d = 9` the claim's
truncation rule demands `0.12345678`, but the Cosmos `formatAmount`
rounds (`toFixed`) and yields `0.12345679`; and on a parse failure
`formatWei` returns the input unchanged (`"abc"`), not `"0"`. -/
theorem c5_counterexample_formatter_rounds :
    formatBaseUnitsSpec 123456789 9 = "0.12345678"
    ∧ formatAmount "123456789" 9 = "0.12345679"
    ∧ (formatAmount "123456789" 9 == formatBaseUnitsSpec 123456789 9) = false
    ∧ formatWei "abc" 18 = "abc"
    ∧ (formatWei "abc" 18 == "0") = false := by
  refine ⟨by decide, by decide, by decide, by decide, by decide⟩

/-- C5 (amended): for every non-negative integer base-unit string and
`d ≤ 18`, the EVM-family `formatWei` returns the decimal representation
of `raw / 10^d` with the fractional part truncated (not rounded) to at
most 8 digits, trailing zeros and trailing point stripped, and `"0"`
when the value is zero; on a parse failure `formatWei` returns the input
unchanged (not `"0"`); the Cosmos `formatAmount` instead rounds at the
8th fractional digit (JavaScript `toFixed`), e.g. `123456789 / 10^9`
formats as `"0.12345679"`. -/
theorem c5_amount_formatter_amended :
    (∀ (s : String) (n d : ℕ), d ≤ 18 → parseNatDigits s = some n →
      formatWei s d = formatBaseUnitsSpec n d)
    ∧ (∀ (s : String) (d : ℕ), parseNatDigits s = none → s ≠ "" → s ≠ "0" →
      formatWei s d = s)
    ∧ formatAmount "123456789" 9 = "0.12345679" := by
  refine ⟨fun s n d _ hp => formatWei_eq_spec_core s n d hp, ?_, by decide⟩
  intro s d hp hs0 hs1
  unfold formatWei
  rw [if_neg (by simp [hs0, hs1]), hp]

/-- C5 witness: the amended theorem evaluated at concrete inputs. -/
theorem c5_amount_formatter_witness :
    formatWei "1500000" 6 = formatBaseUnitsSpec 1500000 6
    ∧ formatWei "123456789012345678901" 18 = formatBaseUnitsSpec 123456789012345678901 18
    ∧ formatWei "zzz" 6 = "zzz" := by
  refine ⟨c5_amount_formatter_amended.1 "1500000" 1500000 6 (by decide) (by decide),
    c5_amount_formatter_amended.1 "123456789012345678901" 123456789012345678901 18
      (by decide) (by decide),
    c5_amount_formatter_amended.2.1 "zzz" 6 (by decide) (by decide) (by decide)⟩

/-! ### Sorting and dedup lemmas, and claim C2 -/


theorem insertDescBy_perm (key : α → ℕ) (x : α) : ∀ l : List α,
    (insertDescBy key x l).Perm (x :: l) := by
  intro l
  induction l with
  | nil => rfl
  | cons y ys ih =>
    unfold insertDescBy
    split
    · exact List.Perm.refl _
    · exact ((ih.cons y).trans (List.Perm.swap x y ys)).symm.symm

theorem sortDescBy_perm (key : α → ℕ) : ∀ l : List α, (sortDescBy key l).Perm l := by
  intro l
  induction l with
  | nil => rfl
  | cons x xs ih =>
    show (insertDescBy key x (sortDescBy key xs)).Perm (x :: xs)
    exact (insertDescBy_perm key x (sortDescBy key xs)).trans (ih.cons x)

theorem insertDescBy_pairwise (key : α → ℕ) (x : α) : ∀ l : List α,
    l.Pairwise (fun a b => key b ≤ key a) →
    (insertDescBy key x l).Pairwise (fun a b => key b ≤ key a) := by
  intro l
  induction l with
  | nil =>
    intro _
    simp [insertDescBy]
  | cons y ys ih =>
    intro h
    rcases List.pairwise_cons.mp h with ⟨h1, h2⟩
    unfold insertDescBy
    split
    · rename_i hle
      refine List.pairwise_cons.mpr ⟨?_, h⟩
      intro z hz
      rcases List.mem_cons.mp hz with rfl | hz'
      · exact hle
      · exact le_trans (h1 z hz') hle
    · rename_i hgt
      refine List.pairwise_cons.mpr ⟨?_, ih h2⟩
      intro z hz
      have hz' := (insertDescBy_perm key x ys).mem_iff.mp hz
      rcases List.mem_cons.mp hz' with rfl | hz''
      · omega
      · exact h1 z hz''

theorem sortDescBy_pairwise (key : α → ℕ) : ∀ l : List α,
    (sortDescBy key l).Pairwise (fun a b => key b ≤ key a) := by
  intro l
  induction l with
  | nil => simp [sortDescBy]
  | cons x xs ih => exact insertDescBy_pairwise key x (sortDescBy key xs) ih

theorem jsMapInsert_map_hash (m : List Tx) (tx : Tx) :
    (jsMapInsert m tx).map Tx.hash =
      if m.any (fun t => t.hash = tx.hash) then m.map Tx.hash
      else m.map Tx.hash ++ [tx.hash] := by
  unfold jsMapInsert
  split
  · rename_i h
    rw [List.map_map]
    apply List.map_congr_left
    intro t _
    by_cases ht : t.hash = tx.hash
    · simp [ht, Function.comp]
    · simp [ht, Function.comp]
  · simp

theorem jsMapDedup_foldl_nodup : ∀ (l m : List Tx), ((m.map Tx.hash).Nodup) →
    (((l.foldl jsMapInsert m).map Tx.hash).Nodup) := by
  intro l
  induction l with
  | nil => intro m h; exact h
  | cons a as ih =>
    intro m h
    show (((as.foldl jsMapInsert (jsMapInsert m a)).map Tx.hash).Nodup)
    apply ih
    rw [jsMapInsert_map_hash]
    split
    · exact h
    · rename_i hany
      rw [List.nodup_append]
      refine ⟨h, List.nodup_singleton _, ?_⟩
      intro s hs hs'
      rcases List.mem_map.mp hs with ⟨t, ht, rfl⟩
      have := List.any_eq_false.mp (Bool.of_not_eq_true hany) t ht
      simp at this
      simp at hs'
      exact this (by rw [hs'])

theorem jsMapDedup_mem_hash : ∀ (l m : List Tx) (h : String),
    (h ∈ (l.foldl jsMapInsert m).map Tx.hash) ↔ (h ∈ m.map Tx.hash ∨ h ∈ l.map Tx.hash) := by
  intro l
  induction l with
  | nil =>
    intro m h
    simp
  | cons a as ih =>
    intro m h
    show h ∈ (as.foldl jsMapInsert (jsMapInsert m a)).map Tx.hash ↔ _
    rw [ih]
    rw [jsMapInsert_map_hash]
    constructor
    · intro hmem
      rcases hmem with hmem | hmem
      · split at hmem
        · exact Or.inl hmem
        · rcases List.mem_append.mp hmem with hm | hm
          · exact Or.inl hm
          · simp at hm
            subst hm
            exact Or.inr (by simp)
      · exact Or.inr (by simp [hmem])
    · intro hmem
      rcases hmem with hmem | hmem
      · split
        · exact Or.inl hmem
        · exact Or.inl (List.mem_append.mpr (Or.inl hmem))
      · rcases List.mem_map.mp hmem with ⟨t, ht, rfl⟩
        rcases List.mem_cons.mp ht with rfl | ht'
        · split
          · rename_i hany
            rcases (List.any_eq_true).mp hany with ⟨u, hu, hueq⟩
            simp at hueq
            exact Or.inl (hueq ▸ List.mem_map_of_mem Tx.hash hu)
          · exact Or.inl (List.mem_append.mpr (Or.inr (by simp)))
        · exact Or.inr (List.mem_map_of_mem Tx.hash ht')

/-- C2: for every pair of sub-query result lists, the Cosmos page merge
deduplicates by hash (no hash occurs twice in the output), re-sorts
descending by timestamp, and truncates to the page size only after the
dedup and re-sort of the full merged list (whose hash set equals the
input's hash set); on the spec's scenario — sender result `{H1}`,
recipient result `{H1, H2}` — it yields exactly the two records `H1`
and `H2`. -/
theorem c2_cosmos_merge_dedup_sort :
    (∀ (sentTxs receivedTxs : List Tx) (limit offset : ℕ),
      ((cosmosMergePage sentTxs receivedTxs limit offset).transactions.map Tx.hash).Nodup
      ∧ (cosmosMergePage sentTxs receivedTxs limit offset).transactions.Pairwise
          (fun a b => b.datetimeUtc ≤ a.datetimeUtc)
      ∧ (cosmosMergePage sentTxs receivedTxs limit offset).transactions
          = (sortDescBy Tx.datetimeUtc (jsMapDedupByHash (sentTxs ++ receivedTxs))).take limit
      ∧ (∀ h : String,
          h ∈ (sortDescBy Tx.datetimeUtc (jsMapDedupByHash (sentTxs ++ receivedTxs))).map Tx.hash
          ↔ h ∈ (sentTxs ++ receivedTxs).map Tx.hash))
    ∧ (cosmosMergePage [cosmosTxSentH1] [cosmosTxRecvH1, cosmosTxRecvH2] 50 0).transactions.map
        Tx.hash = ["H1", "H2"]
    ∧ (cosmosMergePage [cosmosTxSentH1] [cosmosTxRecvH1, cosmosTxRecvH2] 50 0).transactions.length
        = 2 := by
  refine ⟨?_, by decide, by decide⟩
  intro sentTxs receivedTxs limit offset
  have hperm := sortDescBy_perm Tx.datetimeUtc (jsMapDedupByHash (sentTxs ++ receivedTxs))
  have hnodup : ((jsMapDedupByHash (sentTxs ++ receivedTxs)).map Tx.hash).Nodup :=
    jsMapDedup_foldl_nodup (sentTxs ++ receivedTxs) [] (by simp)
  have hsorted_nodup :
      ((sortDescBy Tx.datetimeUtc (jsMapDedupByHash (sentTxs ++ receivedTxs))).map Tx.hash).Nodup :=
    (hperm.map Tx.hash).symm.nodup hnodup
  refine ⟨?_, ?_, rfl, ?_⟩
  · show ((List.take limit _).map Tx.hash).Nodup
    rw [List.map_take]
    exact List.Nodup.sublist (List.take_sublist _ _) hsorted_nodup
  · exact List.Pairwise.sublist (List.take_sublist _ _)
      (sortDescBy_pairwise Tx.datetimeUtc (jsMapDedupByHash (sentTxs ++ receivedTxs)))
  · intro h
    rw [(hperm.map Tx.hash).mem_iff]
    rw [show jsMapDedupByHash (sentTxs ++ receivedTxs)
      = (sentTxs ++ receivedTxs).foldl jsMapInsert [] from rfl]
    rw [jsMapDedup_mem_hash]
    simp

/-! ### Claims C3 and C7 (etherscan-style fetch) -/


theorem jsLimitOf_pos (limitOpt : Option ℕ) : 0 < jsLimitOf limitOpt := by
  unfold jsLimitOf
  rcases limitOpt with _ | l
  · norm_num
  · dsimp only
    split <;> omega

/-- C3: on every etherscan-style success response, `fetchTransactions`
reports `hasMore` exactly when the response carries exactly `limit`
rows, and then the cursor is the next page number `page + 1` (otherwise
no cursor); a mocked 100-row response at `offset = 100` reports
`hasMore = true` and a 37-row response reports `hasMore = false`. -/
theorem c3_etherscan_hasmore_heuristic :
    (∀ (cfg : EvmChainCfg) (address msg : String) (txs : List EtherscanTx)
        (cursor limitOpt : Option ℕ), ∃ fr : FetchResultT,
      fetchEtherscanCore cfg address cursor limitOpt ⟨"1", msg, txs⟩ = .ok fr
      ∧ (fr.hasMore = true ↔ txs.length = jsLimitOf limitOpt)
      ∧ fr.nextCursor
          = (if txs.length = jsLimitOf limitOpt then some (natStr (jsPageOf cursor + 1)) else none)
      ∧ fr.transactions.length = txs.length)
    ∧ hasMoreOfResult (fetchEtherscanCore evmCfgBeam "0xabc" none (some 100)
        ⟨"1", "OK", List.replicate 100 etherscanTxSample⟩) = some true
    ∧ hasMoreOfResult (fetchEtherscanCore evmCfgBeam "0xabc" none (some 100)
        ⟨"1", "OK", List.replicate 37 etherscanTxSample⟩) = some false := by
  refine ⟨?_, by decide, by decide⟩
  intro cfg address msg txs cursor limitOpt
  unfold fetchEtherscanCore
  rw [if_neg (by simp)]
  refine ⟨_, rfl, ?_, ?_, ?_⟩
  · simp only [decide_eq_true_eq]
  · simp only [decide_eq_true_eq]
  · exact List.length_map txs _

/-- C3 witness: the universal part instantiated at a concrete response
of 3 rows against a limit of 3 (cursor page 7). -/
theorem c3_etherscan_hasmore_witness :
    ∃ fr : FetchResultT,
      fetchEtherscanCore evmCfgBeam "0xabc" (some 7) (some 3)
          ⟨"1", "OK", List.replicate 3 etherscanTxSample⟩ = .ok fr
      ∧ (fr.hasMore = true ↔ (List.replicate 3 etherscanTxSample).length = jsLimitOf (some 3))
      ∧ fr.nextCursor = (if (List.replicate 3 etherscanTxSample).length = jsLimitOf (some 3)
          then some (natStr (jsPageOf (some 7) + 1)) else none)
      ∧ fr.transactions.length = (List.replicate 3 etherscanTxSample).length :=
  c3_etherscan_hasmore_heuristic.1 evmCfgBeam "0xabc" "OK"
    (List.replicate 3 etherscanTxSample) (some 7) (some 3)

/-- C7: an etherscan-style response whose application status is not
`'1'` but whose message is the literal `"No transactions found"` is a
success with an empty record list, not a thrown error; any other
non-success message throws, with rate-limit-flavored messages mapped to
a distinguished message. -/
theorem c7_etherscan_no_transactions_found :
    (∀ (cfg : EvmChainCfg) (address st : String) (txs : List EtherscanTx)
        (cursor limitOpt : Option ℕ), st ≠ "1" →
      (fetchEtherscanCore cfg address cursor limitOpt
        ⟨st, "No transactions found", txs⟩).isOk = true)
    ∧ (∀ (cfg : EvmChainCfg) (address st : String) (cursor limitOpt : Option ℕ), st ≠ "1" →
      fetchEtherscanCore cfg address cursor limitOpt ⟨st, "No transactions found", []⟩
        = .ok { transactions := [], nextCursor := none, hasMore := false, totalCount := none })
    ∧ (∀ (cfg : EvmChainCfg) (address st msg : String) (txs : List EtherscanTx)
        (cursor limitOpt : Option ℕ), st ≠ "1" → msg ≠ "No transactions found" →
      (fetchEtherscanCore cfg address cursor limitOpt ⟨st, msg, txs⟩).isOk = false)
    ∧ (∀ (cfg : EvmChainCfg) (address st msg : String) (txs : List EtherscanTx)
        (cursor limitOpt : Option ℕ), st ≠ "1" → msg ≠ "No transactions found" →
      jsIncludes msg "rate limit" = true →
      fetchEtherscanCore cfg address cursor limitOpt ⟨st, msg, txs⟩
        = .error (cfg.name ++ " API rate limit exceeded. Please try again later.")) := by
  refine ⟨?_, ?_, ?_, ?_⟩
  · intro cfg address st txs cursor limitOpt _
    unfold fetchEtherscanCore
    rw [if_neg (by simp)]
    rfl
  · intro cfg address st cursor limitOpt _
    unfold fetchEtherscanCore
    rw [if_neg (by simp)]
    have hlim := jsLimitOf_pos limitOpt
    have hd : (decide ((0 : ℕ) = jsLimitOf limitOpt)) = false := by
      simp only [decide_eq_false_iff_not]
      omega
    simp only [List.map_nil, List.length_nil, hd]
    rfl
  · intro cfg address st msg txs cursor limitOpt hst hmsg
    unfold fetchEtherscanCore
    rw [if_pos ⟨hst, hmsg⟩]
    split <;> rfl
  · intro cfg address st msg txs cursor limitOpt hst hmsg hrate
    unfold fetchEtherscanCore
    rw [if_pos ⟨hst, hmsg⟩, if_pos hrate]

/-- C7 witness: a status-`'0'` `"No transactions found"` response is an
empty success, and a status-`'0'` rate-limit response throws the
distinguished error. -/
theorem c7_etherscan_witness :
    fetchEtherscanCore evmCfgBeam "0xabc" none none ⟨"0", "No transactions found", []⟩
      = .ok { transactions := [], nextCursor := none, hasMore := false, totalCount := none }
    ∧ fetchEtherscanCore evmCfgBeam "0xabc" none none ⟨"0", "Max rate limit reached", []⟩
      = .error "Beam API rate limit exceeded. Please try again later." :=
  ⟨c7_etherscan_no_transactions_found.2.1 evmCfgBeam "0xabc" "0" none none (by decide),
   c7_etherscan_no_transactions_found.2.2.2 evmCfgBeam "0xabc" "0" "Max rate limit reached" []
     none none (by decide) (by decide) (by decide)⟩

/-! ### Claims C4 and C6 (perps adapters) -/


theorem mapMExcept_error {α β ε : Type} (f : α → Except ε β) : ∀ (l : List α) (x : α),
    x ∈ l → (∃ e, f x = .error e) → ∃ e, mapMExcept f l = .error e := by
  intro l
  induction l with
  | nil =>
    intro x hx
    simp at hx
  | cons a as ih =>
    intro x hx hexx
    unfold mapMExcept
    cases hfa : f a with
    | error e => exact ⟨e, rfl⟩
    | ok b =>
      rcases List.mem_cons.mp hx with rfl | hx'
      · rcases hexx with ⟨e, he⟩
        rw [hfa] at he
        cases he
      · rcases ih x hx' hexx with ⟨e, he⟩
        rw [he]
        exact ⟨e, rfl⟩

theorem dydxFillToTransaction_error_of_no_pnl (address : String) (fill : DydxFill)
    (h : fill.realizedPnl = none) : ∃ e, dydxFillToTransaction address fill = .error e := by
  unfold dydxFillToTransaction
  split
  · exact ⟨_, rfl⟩
  · rw [h]
    exact ⟨_, rfl⟩

/-- C4: whenever any fetched dYdX fill lacks the `realizedPnl` field,
the whole `fetchTransactions` call rejects with an error instead of
returning records with a guessed open/close classification. -/
theorem c4_dydx_missing_pnl_throws :
    ∀ (address : String) (fills : List DydxFill) (funding : List DydxFundingPayment)
      (fill : DydxFill), fill ∈ fills → fill.realizedPnl = none →
      ∃ msg, dydxFetchCore address fills funding = .error msg := by
  intro address fills funding fill hmem hpnl
  unfold dydxFetchCore
  split
  · exact ⟨_, rfl⟩
  · rcases mapMExcept_error (dydxFillToTransaction address) fills fill hmem
      (dydxFillToTransaction_error_of_no_pnl address fill hpnl) with ⟨e, he⟩
    rw [he]
    exact ⟨e, rfl⟩

/-- C4 witness: the theorem evaluated on a single perpetual fill with no
`realizedPnl`, which indeed yields a rejection. -/
theorem c4_dydx_missing_pnl_witness :
    (∃ msg, dydxFetchCore dydxAddrSample [dydxFillNoPnl] [] = .error msg)
    ∧ (dydxFetchCore dydxAddrSample [dydxFillNoPnl] []).isOk = false :=
  ⟨c4_dydx_missing_pnl_throws dydxAddrSample [dydxFillNoPnl] [] dydxFillNoPnl
      (List.mem_singleton_self dydxFillNoPnl) rfl,
   by decide⟩

/-- C6: the direction of every record built by the shared
`BasePerpsAdapter.createTransaction` is a function of the supplied tag
and PnL alone: `open_position` records flow out, and
`close_position`/`funding_payment` records flow in exactly when the PnL
is non-negative; the supplied tag is stored unchanged. -/
theorem c6_perps_direction_policy :
    ∀ (info : PerpsChainInfo) (cfg : PerpsChainCfg) (p : PerpsTxParams),
      (createTransaction info cfg p).direction
        = (if p.tag = PerpsTag.open_position then Direction.out
           else if 0 ≤ p.pnl then Direction.inn else Direction.out)
      ∧ (createTransaction info cfg p).tag = p.tag := by
  intro info cfg p
  rcases htag : p.tag <;>
    simp [createTransaction, htag]

/-! ### Claim C9 (CSV escaping) -/


theorem listContainsSub_of_mem (c : Char) : ∀ l : List Char, c ∈ l →
    listContainsSub l [c] = true := by
  intro l
  induction l with
  | nil => intro h; simp at h
  | cons a cs ih =>
    intro h
    unfold listContainsSub
    rcases List.mem_cons.mp h with rfl | h'
    · unfold listStartsWith
      have : listStartsWith cs [] = true := by
        cases cs <;> rfl
      simp [this]
    · simp [ih h']

theorem doubleQuotesList_eq_flatMap : ∀ l : List Char,
    doubleQuotesList l = l.flatMap (fun c => if c = '"' then ['"', '"'] else [c]) := by
  intro l
  induction l with
  | nil => rfl
  | cons c cs ih =>
    unfold doubleQuotesList
    rw [List.flatMap_cons, ih]
    split <;> simp

theorem collapseQuotes_cons₂ (c d : Char) (cs : List Char) :
    collapseQuotes (c :: d :: cs)
      = if c = '"' ∧ d = '"' then '"' :: collapseQuotes cs
        else c :: collapseQuotes (d :: cs) := rfl

theorem collapseQuotes_doubleQuotes : ∀ l : List Char,
    collapseQuotes (doubleQuotesList l) = l := by
  intro l
  induction l with
  | nil => rfl
  | cons c cs ih =>
    by_cases hc : c = '"'
    · subst hc
      show collapseQuotes ('"' :: '"' :: doubleQuotesList cs) = _
      rw [collapseQuotes_cons₂, if_pos ⟨rfl, rfl⟩, ih]
    · show collapseQuotes (if c = '"' then _ else c :: doubleQuotesList cs) = _
      rw [if_neg hc]
      cases hd : doubleQuotesList cs with
      | nil =>
        have hcs : cs = [] := by
          cases cs with
          | nil => rfl
          | cons a l' =>
            unfold doubleQuotesList at hd
            split at hd <;> simp at hd
        subst hcs
        rfl
      | cons d rest =>
        rw [collapseQuotes_cons₂, if_neg (by simp [hc]), ← hd, ih]

theorem csvUnescapeCell_eq_of_data (s : String) (c : Char) (rest : List Char)
    (h : s.data = c :: rest) :
    csvUnescapeCell s
      = if c = '"' ∧ rest ≠ [] ∧ rest.getLast? = some '"' then
          String.mk (collapseQuotes rest.dropLast)
        else s := by
  unfold csvUnescapeCell
  rw [h]


set_option maxRecDepth 8000 in
/-- C9: in the generated CSV, a cell value containing a comma, double
quote, or newline is emitted wrapped in double quotes with every inner
double quote doubled, and a value containing none of them is emitted
verbatim; the escaping is lossless (a specification-side cell parser
recovers the value); the spec's example notes value serializes to
exactly the expected cell, and the full export of a record carrying it
contains that cell. -/
theorem c9_csv_escaping :
    (∀ v : String, (jsIncludes v "," || jsIncludes v "\"" || jsIncludes v "\n") = true →
      escapeCsvCell v
        = "\"" ++ String.mk (v.data.flatMap (fun c => if c = '"' then ['"', '"'] else [c]))
          ++ "\"")
    ∧ (∀ v : String, (jsIncludes v "," || jsIncludes v "\"" || jsIncludes v "\n") = false →
      escapeCsvCell v = v)
    ∧ (∀ v : String, csvUnescapeCell (escapeCsvCell v) = v)
    ∧ escapeCsvCell "He said, \"hi\"\nbye" = "\"He said, \"\"hi\"\"\nbye\""
    ∧ generateAwakenCsv [csvSampleTx]
        = "Date,Asset,Amount,Fee,P&L,Payment Token,ID,Notes,Tag,Transaction Hash\n01/01/1970 00:00:00,ETH,1.5,0.002,0,ETH,abcdef1234567890,\"He said, \"\"hi\"\"\nbye\",,abcdef1234567890deadbeef" := by
  refine ⟨?_, ?_, ?_, by decide, by decide⟩
  · intro v h
    unfold escapeCsvCell
    rw [if_pos h, doubleQuotesList_eq_flatMap]
  · intro v h
    unfold escapeCsvCell
    rw [if_neg (by simp [h])]
  · intro v
    by_cases h : (jsIncludes v "," || jsIncludes v "\"" || jsIncludes v "\n") = true
    · unfold escapeCsvCell
      rw [if_pos h]
      have hdata : ("\"" ++ String.mk (doubleQuotesList v.data) ++ "\"").data
          = '"' :: (doubleQuotesList v.data ++ ['"']) := by
        rw [String.data_append, String.data_append]
        rfl
      rw [csvUnescapeCell_eq_of_data _ '"' (doubleQuotesList v.data ++ ['"']) hdata]
      rw [if_pos ⟨rfl, by simp, List.getLast?_concat _⟩]
      rw [List.dropLast_concat, collapseQuotes_doubleQuotes]
    · rw [escapeCsvCell, if_neg h]
      have hq : jsIncludes v "\"" = false := by
        rcases Bool.or_eq_false_iff.mp (Bool.of_not_eq_true h) with ⟨h1, h2⟩
        exact (Bool.or_eq_false_iff.mp h1).2
      have hnotmem : Char.ofNat 34 ∉ v.data := by
        intro hmem
        rw [show jsIncludes v "\"" = listContainsSub v.data [Char.ofNat 34] from rfl] at hq
        rw [listContainsSub_of_mem (Char.ofNat 34) v.data hmem] at hq
        cases hq
      cases hd : v.data with
      | nil =>
        unfold csvUnescapeCell
        rw [hd]
      | cons c rest =>
        rw [csvUnescapeCell_eq_of_data v c rest hd]
        rw [if_neg ?_]
        intro hcon
        rcases hcon with ⟨hceq, _⟩
        subst hceq
        exact hnotmem (hd ▸ List.mem_cons_self _ _)

/-! ### Claims C1, C8 and C10 (relay allow-list and orchestration) -/


/-- C1 (failing input): the relay's allow-list check is substring
containment on the hostname, so the handler forwards a request whose
hostname `lcd.osmosis.zone.evil.example` merely *contains* an
allow-listed domain while being on no allow-list entry, instead of
rejecting it with 403; the 403 branch is reached only when no allowed
domain occurs as a substring (shown on `evil.example`). -/
theorem c1_proxy_allowlist_substring_bug :
    proxyHandle (some "https://lcd.osmosis.zone.evil.example/cosmos/tx")
      = ProxyOutcome.forward "https://lcd.osmosis.zone.evil.example/cosmos/tx"
    ∧ urlHostname "https://lcd.osmosis.zone.evil.example/cosmos/tx"
      = "lcd.osmosis.zone.evil.example"
    ∧ allowedDomains.contains "lcd.osmosis.zone.evil.example" = false
    ∧ proxyIsAllowed "https://lcd.osmosis.zone.evil.example/cosmos/tx" = true
    ∧ proxyHandle (some "https://evil.example/x") = ProxyOutcome.forbidden
    ∧ proxyHandle (some "https://lcd.osmosis.zone/cosmos/tx")
      = ProxyOutcome.forward "https://lcd.osmosis.zone/cosmos/tx" := by
  refine ⟨by decide, by decide, by decide, by decide, by decide, by decide⟩

/-- C8 (failing interleaving): with no query-identity guard in the
resolution handlers, an osmosis fetch that resolves after a newer
celestia fetch has already been issued and resolved overwrites the
celestia results: the final state shows the stale osmosis transaction
list, stale cursor and stale `hasMore` under the celestia query context,
whereas before the stale resolution the state held the celestia
results. -/
theorem c8_stale_fetch_overwrites_fresh :
    (orchestratorRun regSample initialHookState
        [.start "osmosis" "osmo1abc", .start "celestia" "celestia1abc",
         .resolveOk freshResultB, .resolveOk staleResultA]).transactions
      = staleResultA.transactions
    ∧ (orchestratorRun regSample initialHookState
        [.start "osmosis" "osmo1abc", .start "celestia" "celestia1abc",
         .resolveOk freshResultB, .resolveOk staleResultA]).currentChainId = "celestia"
    ∧ (orchestratorRun regSample initialHookState
        [.start "osmosis" "osmo1abc", .start "celestia" "celestia1abc",
         .resolveOk freshResultB, .resolveOk staleResultA]).currentAddress = "celestia1abc"
    ∧ (orchestratorRun regSample initialHookState
        [.start "osmosis" "osmo1abc", .start "celestia" "celestia1abc",
         .resolveOk freshResultB, .resolveOk staleResultA]).cursor = staleResultA.nextCursor
    ∧ (orchestratorRun regSample initialHookState
        [.start "osmosis" "osmo1abc", .start "celestia" "celestia1abc",
         .resolveOk freshResultB]).transactions = freshResultB.transactions
    ∧ (staleResultA.transactions == freshResultB.transactions) = false := by
  refine ⟨by decide, by decide, by decide, by decide, by decide, by decide⟩

/-- C10: a `fetchTransactions` call that fails validation — unknown
chain, or address rejected by the resolved adapter — sets only the error
message and issues no fetch: the accumulated transactions, cursor,
`hasMore`, `totalCount`, `loading`, and the current chain/address
context are all left unchanged. -/
theorem c10_validation_failure_frame :
    (∀ (getAdapter : String → Option AdapterL) (chainId address : String) (s : HookState),
      getAdapter chainId = none →
        (fetchStart getAdapter chainId address s).1.transactions = s.transactions
        ∧ (fetchStart getAdapter chainId address s).1.cursor = s.cursor
        ∧ (fetchStart getAdapter chainId address s).1.hasMore = s.hasMore
        ∧ (fetchStart getAdapter chainId address s).1.totalCount = s.totalCount
        ∧ (fetchStart getAdapter chainId address s).1.loading = s.loading
        ∧ (fetchStart getAdapter chainId address s).1.currentChainId = s.currentChainId
        ∧ (fetchStart getAdapter chainId address s).1.currentAddress = s.currentAddress
        ∧ (fetchStart getAdapter chainId address s).1.error
            = some ("Unsupported chain: " ++ chainId)
        ∧ (fetchStart getAdapter chainId address s).2 = false)
    ∧ (∀ (getAdapter : String → Option AdapterL) (chainId address : String) (s : HookState)
        (adapter : AdapterL), getAdapter chainId = some adapter →
        adapter.validateAddress address = false →
        (fetchStart getAdapter chainId address s).1.transactions = s.transactions
        ∧ (fetchStart getAdapter chainId address s).1.cursor = s.cursor
        ∧ (fetchStart getAdapter chainId address s).1.hasMore = s.hasMore
        ∧ (fetchStart getAdapter chainId address s).1.totalCount = s.totalCount
        ∧ (fetchStart getAdapter chainId address s).1.loading = s.loading
        ∧ (fetchStart getAdapter chainId address s).1.currentChainId = s.currentChainId
        ∧ (fetchStart getAdapter chainId address s).1.currentAddress = s.currentAddress
        ∧ (fetchStart getAdapter chainId address s).1.error
            = some ("Invalid address format for " ++ adapter.name)
        ∧ (fetchStart getAdapter chainId address s).2 = false) := by
  constructor
  · intro getAdapter chainId address s h
    unfold fetchStart
    rw [h]
    exact ⟨rfl, rfl, rfl, rfl, rfl, rfl, rfl, rfl, rfl⟩
  · intro getAdapter chainId address s adapter h hv
    unfold fetchStart
    rw [h]
    dsimp only
    rw [if_pos hv]
    exact ⟨rfl, rfl, rfl, rfl, rfl, rfl, rfl, rfl, rfl⟩

/-- C10 witness: an unknown chain and a rejected address against a
state holding a prior session's results, which survive unchanged. -/
theorem c10_validation_failure_witness :
    (fetchStart regSample "fantom" "0xabc" hookStateWithResults).1.transactions
      = hookStateWithResults.transactions
    ∧ (fetchStart regSample "fantom" "0xabc" hookStateWithResults).1.error
      = some "Unsupported chain: fantom"
    ∧ (fetchStart (fun _ => some { validateAddress := fun _ => false, name := "Osmosis" })
        "osmosis" "bad" hookStateWithResults).1.transactions
      = hookStateWithResults.transactions
    ∧ (fetchStart (fun _ => some { validateAddress := fun _ => false, name := "Osmosis" })
        "osmosis" "bad" hookStateWithResults).1.error
      = some "Invalid address format for Osmosis" := by
  have h1 := c10_validation_failure_frame.1 regSample "fantom" "0xabc" hookStateWithResults rfl
  have h2 := c10_validation_failure_frame.2
    (fun _ => some { validateAddress := fun _ => false, name := "Osmosis" })
    "osmosis" "bad" hookStateWithResults
    { validateAddress := fun _ => false, name := "Osmosis" } rfl rfl
  exact ⟨h1.1, h1.2.2.2.2.2.2.2.1, h2.1, h2.2.2.2.2.2.2.2.1⟩


/-- C9 witness: the escaping characterizations evaluated at concrete
cells. -/
theorem c9_csv_escaping_witness :
    escapeCsvCell "a,b"
      = "\"" ++ String.mk ("a,b".data.flatMap (fun c => if c = '"' then ['"', '"'] else [c]))
        ++ "\""
    ∧ escapeCsvCell "plain" = "plain"
    ∧ csvUnescapeCell (escapeCsvCell "x\"y") = "x\"y" :=
  ⟨c9_csv_escaping.1 "a,b" (by decide),
   c9_csv_escaping.2.1 "plain" (by decide),
   c9_csv_escaping.2.2.1 "x\"y"⟩

end TXLedger
